import Mathlib

/-!
Verification of the instance lifecycle and synchronization core of
`react-use-echarts`.  The definitions below are shallow embeddings of the
TypeScript modules:

* `src/utils/instance-cache.ts` — the reference-counted instance cache
  (container keyed `WeakMap`), with dispose calls recorded in an explicit log;
* `src/utils/connect.ts` — the group registry and its engine
  `connect`/`disconnect` side effects, the engine connection state being
  modelled as the set of group ids whose most recent engine call was `connect`;
* `src/themes/index.ts` — the two-level (reference + content hash) custom
  theme registration cache, with `echarts.registerTheme` calls recorded in a log;
* `src/hooks/use-lazy-init.ts` — the viewport-gated lazy activation state
  machine;
* `src/hooks/use-echarts.ts` — the effect bodies relevant to error routing
  (init effect, option-update effect, public `setOption`), with engine calls
  that may throw modelled by Boolean oracles.

JavaScript `Map`s are modelled as association lists in insertion order
(`Map.set` on a fresh key appends; value update rewrites the entry in place).
Object identity is modelled by natural-number reference ids; `JSON.stringify`
of a theme object is modelled by a content function on reference ids.
-/

namespace ReactUseEcharts

/-! ### Association lists in insertion order (JS `Map` / `WeakMap` model) -/

/-- First-match lookup, the model of `Map.get` / `WeakMap.get`. -/
def alookup {α β : Type} [DecidableEq α] : List (α × β) → α → Option β
  | [], _ => none
  | (k, v) :: rest, a => if k = a then some v else alookup rest a

/-- In-place value update for a key, the model of mutating the entry object
held in a `Map` (`entry.refCount += 1`, `group.add(...)`, ...).  Entries with
other keys are untouched; if the key is absent the list is unchanged. -/
def setEntry {α β : Type} [DecidableEq α] (l : List (α × β)) (a : α) (v : β) :
    List (α × β) :=
  l.map (fun p => if p.1 = a then (a, v) else p)

/-- Key removal, the model of `Map.delete`. -/
def deleteKey {α β : Type} [DecidableEq α] (l : List (α × β)) (a : α) :
    List (α × β) :=
  l.filter (fun p => !(p.1 = a : Bool))

/-! ### Instance cache — `src/utils/instance-cache.ts`

Containers and engine instances are identified by natural numbers.  Every
operation returns alongside the new cache the list of instance ids on which
`dispose()` was invoked during the call. -/

/-- `CacheEntry` of `instance-cache.ts`: `{ instance, refCount }`. -/
structure CacheEntry where
  inst : Nat
  refCount : Nat
deriving DecidableEq, Repr

/-- The `instanceCache` `WeakMap`, keyed by container id. -/
abbrev Cache := List (Nat × CacheEntry)

/-- `getCachedInstance`: read the cached instance without touching refcounts. -/
def getCachedInstance (c : Cache) (el : Nat) : Option Nat :=
  (alookup c el).map CacheEntry.inst

/-- `setCachedInstance` (acquire): increment the refcount of an existing entry
and return the cached instance (the factory argument is ignored), or create a
fresh entry with `refCount = 1`.  Never disposes anything. -/
def setCachedInstance (c : Cache) (el i : Nat) : Cache × Nat :=
  match alookup c el with
  | some e => (setEntry c el ⟨e.inst, e.refCount + 1⟩, e.inst)
  | none => (c ++ [(el, ⟨i, 1⟩)], i)

/-- `replaceCachedInstance`: overwrite the entry's instance keeping its
refcount, or create a fresh entry with `refCount = 1`.  The source performs no
`dispose()` call in either branch, hence the empty disposal log. -/
def replaceCachedInstance (c : Cache) (el i : Nat) : Cache × Nat × List Nat :=
  match alookup c el with
  | some e => (setEntry c el ⟨i, e.refCount⟩, i, [])
  | none => (c ++ [(el, ⟨i, 1⟩)], i, [])

/-- `releaseCachedInstance`: missing entry is a no-op; otherwise decrement the
refcount and, if it reached `≤ 0`, dispose the instance and delete the entry. -/
def releaseCachedInstance (c : Cache) (el : Nat) : Cache × List Nat :=
  match alookup c el with
  | none => (c, [])
  | some e =>
    if e.refCount - 1 = 0 then (deleteKey c el, [e.inst])
    else (setEntry c el ⟨e.inst, e.refCount - 1⟩, [])

/-- `getReferenceCount`: `0` when not cached. -/
def getReferenceCount (c : Cache) (el : Nat) : Nat :=
  match alookup c el with
  | some e => e.refCount
  | none => 0

/-- `clearInstanceCache`: the function body in `instance-cache.ts` is empty
(`WeakMap` cannot be iterated), so the cache is unchanged and nothing is
disposed. -/
def clearInstanceCache (c : Cache) : Cache × List Nat :=
  (c, [])

/-- Acquire / release events on one container. -/
inductive CacheOp where
  | acquire (i : Nat)
  | release
deriving DecidableEq, Repr

/-- One acquire/release step; the second component is the disposal log of the
step. -/
def stepCacheOp (el : Nat) (c : Cache) : CacheOp → Cache × List Nat
  | CacheOp.acquire i => ((setCachedInstance c el i).1, [])
  | CacheOp.release => releaseCachedInstance c el

/-- Run a sequence of acquire/release calls against one container,
accumulating the disposal log. -/
def runCacheOps (el : Nat) : List CacheOp → Cache → Cache × List Nat
  | [], c => (c, [])
  | op :: ops, c =>
    let s := stepCacheOp el c op
    let t := runCacheOps el ops s.1
    (t.1, s.2 ++ t.2)

/-- Well-formedness of the cache: every live entry has `refCount ≥ 1`. -/
def wfCache (c : Cache) : Prop :=
  ∀ p ∈ c, 1 ≤ p.2.refCount

instance (c : Cache) : Decidable (wfCache c) := by
  unfold wfCache; infer_instance

/-! ### Group registry — `src/utils/connect.ts`

`groupRegistry` maps a group id to the set of member instances (modelled as a
duplicate-free list in insertion order, matching JS `Set`).  The engine side
effect state is the set of group ids whose most recent engine call was
`echarts.connect` (a `connect` overwrites a previous `disconnect` for the same
id and vice versa). -/

/-- State: the `groupRegistry` map plus the engine's connection state. -/
structure GroupReg where
  groups : List (String × List Nat)
  connected : List String
deriving DecidableEq, Repr

/-- The empty registry with no group connected. -/
def emptyGroupReg : GroupReg := ⟨[], []⟩

/-- Effect of `echarts.connect(groupId)` on the connection state. -/
def connectCall (conn : List String) (g : String) : List String :=
  if g ∈ conn then conn else g :: conn

/-- Effect of `echarts.disconnect(groupId)` on the connection state. -/
def disconnectCall (conn : List String) (g : String) : List String :=
  conn.filter (fun x => !(x = g : Bool))

/-- `getGroupInstances`: member list of a group (empty for unknown groups). -/
def getGroupInstances (r : GroupReg) (g : String) : List Nat :=
  (alookup r.groups g).getD []

/-- `Set.add` on a member list: a no-op on an existing member, otherwise
insertion at the end. -/
def addMem (mem : List Nat) (i : Nat) : List Nat :=
  if i ∈ mem then mem else mem ++ [i]

/-- `addToGroup`: create the group's set if missing, add the instance
(`Set.add` is a no-op on an existing member), then `connect` whenever the
resulting size exceeds 1. -/
def addToGroup (r : GroupReg) (i : Nat) (g : String) : GroupReg :=
  let groups0 :=
    if (alookup r.groups g).isSome then r.groups
    else r.groups ++ [(g, ([] : List Nat))]
  let mem' := addMem ((alookup groups0 g).getD []) i
  { groups := setEntry groups0 g mem',
    connected :=
      if 1 < mem'.length then connectCall r.connected g else r.connected }

/-- `removeFromGroup`: no-op on an unknown group; otherwise delete the
instance from the set, then: empty set — delete the group and `disconnect`;
singleton — `disconnect`; two or more — re-`connect`. -/
def removeFromGroup (r : GroupReg) (i : Nat) (g : String) : GroupReg :=
  match alookup r.groups g with
  | none => r
  | some mem =>
    let mem' := mem.erase i
    { groups :=
        if mem'.length = 0 then deleteKey r.groups g
        else setEntry r.groups g mem',
      connected :=
        if mem'.length = 0 then disconnectCall r.connected g
        else if mem'.length = 1 then disconnectCall r.connected g
        else connectCall r.connected g }

/-- `updateGroup`: leave the old group (when given) before joining the new
one (when given). -/
def updateGroup (r : GroupReg) (i : Nat) (oldG newG : Option String) : GroupReg :=
  let r1 := match oldG with
    | some og => removeFromGroup r i og
    | none => r
  match newG with
  | some ng => addToGroup r1 i ng
  | none => r1

/-- `getInstanceGroup`: the first group (in registry iteration order) whose
set contains the instance. -/
def getInstanceGroup (r : GroupReg) (i : Nat) : Option String :=
  (r.groups.find? (fun p => decide (i ∈ p.2))).map Prod.fst

/-- `isInGroup`. -/
def isInGroup (r : GroupReg) (i : Nat) : Bool :=
  (getInstanceGroup r i).isSome

/-- Raw group-registry operations (claim C2 quantifies over these). -/
inductive GroupOp where
  | join (i : Nat) (g : String)
  | leave (i : Nat) (g : String)
  | move (i : Nat) (oldG newG : Option String)
deriving DecidableEq, Repr

/-- One raw registry operation. -/
def stepGroupOp (r : GroupReg) : GroupOp → GroupReg
  | GroupOp.join i g => addToGroup r i g
  | GroupOp.leave i g => removeFromGroup r i g
  | GroupOp.move i og ng => updateGroup r i og ng

/-- Run a sequence of raw registry operations. -/
def runGroupOps : List GroupOp → GroupReg → GroupReg
  | [], r => r
  | op :: ops, r => runGroupOps ops (stepGroupOp r op)

/-- The engine connection for a group is in effect iff the group has at least
two members. -/
def connectConsistent (r : GroupReg) : Prop :=
  ∀ g, g ∈ r.connected ↔ 2 ≤ (getGroupInstances r g).length

/-- Disciplined moves, as issued by the hook: the old group passed to
`updateGroup` is always the instance's actual current group
(`getInstanceGroup`), cf. the init effect (fresh instance, `undefined` old
group), effect 5 and the init-effect cleanup in `use-echarts.ts`. -/
def runMoves : List (Nat × Option String) → GroupReg → GroupReg
  | [], r => r
  | (i, ng) :: rest, r => runMoves rest (updateGroup r i (getInstanceGroup r i) ng)

/-- Keys of the registry map are distinct. -/
def keysNodup (r : GroupReg) : Prop :=
  (r.groups.map Prod.fst).Nodup

/-- Member lists are duplicate-free (JS `Set` semantics). -/
def memNodup (r : GroupReg) : Prop :=
  ∀ p ∈ r.groups, p.2.Nodup

/-- Exclusive membership: an instance belongs to at most one group. -/
def exclusiveMembership (r : GroupReg) : Prop :=
  ∀ i g₁ g₂, i ∈ getGroupInstances r g₁ → i ∈ getGroupInstances r g₂ → g₁ = g₂

/-- Registry invariant maintained by the hook's disciplined `updateGroup`
usage: distinct keys, duplicate-free member sets, exclusive membership. -/
def groupInv (r : GroupReg) : Prop :=
  keysNodup r ∧ memNodup r ∧ exclusiveMembership r

/-! ### Theme registry — `src/themes/index.ts`

Theme objects are identified by reference ids (`Nat`); `JSON.stringify` of an
object is modelled by a content function on reference ids (an object's content
is fixed for its lifetime).  `echarts.registerTheme(name, config)` calls are
recorded as `(name, contentHash)` pairs in a log. -/

/-- Module state of `themes/index.ts`: `customThemeCache` (reference →
name), `contentHashCache` (content hash → name), `customThemeCounter`, and
the log of engine registrations. -/
structure ThemeState where
  refCache : List (Nat × String)
  contentCache : List (String × String)
  counter : Nat
  registrations : List (String × String)
deriving DecidableEq, Repr

/-- Module-load state: both caches empty, counter 0, nothing registered. -/
def initialThemeState : ThemeState := ⟨[], [], 0, []⟩

/-- `getOrRegisterCustomTheme`: reference fast path, content-hash dedup slow
path, and the registration miss path
(`__custom_theme_${customThemeCounter++}`). -/
def getOrRegisterCustomTheme (contentOf : Nat → String) (s : ThemeState)
    (ref : Nat) : ThemeState × String :=
  match alookup s.refCache ref with
  | some n => (s, n)
  | none =>
    let contentHash := contentOf ref
    match alookup s.contentCache contentHash with
    | some n => ({ s with refCache := s.refCache ++ [(ref, n)] }, n)
    | none =>
      let themeName := "__custom_theme_" ++ toString s.counter
      ({ refCache := s.refCache ++ [(ref, themeName)],
         contentCache := s.contentCache ++ [(contentHash, themeName)],
         counter := s.counter + 1,
         registrations := s.registrations ++ [(themeName, contentHash)] },
       themeName)

/-- Run a sequence of `getOrRegisterCustomTheme` calls, collecting the list
of returned names. -/
def runThemeCalls (contentOf : Nat → String) :
    List Nat → ThemeState → ThemeState × List String
  | [], s => (s, [])
  | ref :: refs, s =>
    let t := getOrRegisterCustomTheme contentOf s ref
    let u := runThemeCalls contentOf refs t.1
    (u.1, t.2 :: u.2)

/-- Number of `registerTheme` calls recorded for a given content. -/
def countRegistrationsFor (s : ThemeState) (c : String) : Nat :=
  (s.registrations.filter (fun p => decide (p.2 = c))).length

/-- Theme state invariant: every reference-cache entry agrees with the
content cache, registrations correspond one-to-one (in order) to content
cache keys, and content cache keys are distinct. -/
def themeInv (contentOf : Nat → String) (s : ThemeState) : Prop :=
  (∀ p ∈ s.refCache, alookup s.contentCache (contentOf p.1) = some p.2) ∧
  s.registrations.map Prod.snd = s.contentCache.map Prod.fst ∧
  (s.contentCache.map Prod.fst).Nodup

/-! ### Effect bodies of the hook — `src/hooks/use-echarts.ts`

The engine calls that may throw (`echarts.init`, `instance.setOption`) are
modelled by Boolean oracles; each effect body becomes a function producing a
record of which engine calls were made and where an error went. -/

/-- Observable outcome of one run of the init effect (effect 1). -/
structure InitRun where
  themesRegistered : Bool
  initCalled : Bool
  initErrorRouted : Bool
  initErrorLogged : Bool
  cached : Bool
  setOptionCalled : Bool
  setOptionErrorRouted : Bool
  setOptionErrorLogged : Bool
  setOptionRethrown : Bool
  baselineRecorded : Bool
  loadingShown : Bool
  eventsBound : Bool
  groupJoined : Bool
deriving DecidableEq, Repr

/-- The all-`false` outcome: the effect returned before doing anything. -/
def noInitRun : InitRun :=
  ⟨false, false, false, false, false, false, false, false, false, false,
   false, false, false⟩

/-- The init effect body: guard on `shouldInit` and the container; register
builtin themes; `echarts.init` in `try/catch` (on throw: route to `onError`
when configured else `console.error`, then `return`); cache the instance;
apply the initial option in `try/catch` (on throw: route or `console.error`,
never rethrow, and fall through); apply loading; bind events; join group. -/
def initEffect (shouldInit elementPresent initThrows setOptionThrows
    hasOnError showLoading hasGroup : Bool) : InitRun :=
  if !shouldInit then noInitRun
  else if !elementPresent then noInitRun
  else if initThrows then
    { noInitRun with
      themesRegistered := true,
      initCalled := true,
      initErrorRouted := hasOnError,
      initErrorLogged := !hasOnError }
  else
    { themesRegistered := true,
      initCalled := true,
      initErrorRouted := false,
      initErrorLogged := false,
      cached := true,
      setOptionCalled := true,
      setOptionErrorRouted := setOptionThrows && hasOnError,
      setOptionErrorLogged := setOptionThrows && !hasOnError,
      setOptionRethrown := false,
      baselineRecorded := !setOptionThrows,
      loadingShown := showLoading,
      eventsBound := true,
      groupJoined := hasGroup }

/-- Observable outcome of one run of the option-update effect (effect 2). -/
structure UpdateRun where
  setOptionCalled : Bool
  errorRouted : Bool
  rethrown : Bool
  logged : Bool
  baselineUpdated : Bool
deriving DecidableEq, Repr

/-- The option-update effect body: guard on a cached instance; skip when the
(option, opts) pair is reference-identical to the recorded baseline;
`setOption` in `try/catch`, routing the error to `onError` when configured
and rethrowing (`throw error`) otherwise. -/
def updateEffect (instancePresent sameAsBaseline setOptionThrows
    hasOnError : Bool) : UpdateRun :=
  if !instancePresent then ⟨false, false, false, false, false⟩
  else if sameAsBaseline then ⟨false, false, false, false, false⟩
  else if setOptionThrows then
    if hasOnError then ⟨true, true, false, false, false⟩
    else ⟨true, false, true, false, false⟩
  else ⟨true, false, false, false, true⟩

/-- `SetOptionOpts`-style records, modelled as key/value association lists. -/
abbrev Opts := List (String × Nat)

/-- JS object spread `{ ...a, ...b }` on option records: an entry of `a`
survives only when `b` has no entry for its key. -/
def mergeOpts (a b : Opts) : Opts :=
  a.filter (fun p => (alookup b p.1).isNone) ++ b

/-- Observable outcome of one call of the public `setOption`. -/
structure SetOptionRun where
  engineCalled : Bool
  optsUsed : Opts
  errorRouted : Bool
  rethrown : Bool
deriving DecidableEq, Repr

/-- The public `setOption` callback: silent return when `getInstance()` finds
nothing; otherwise the engine `setOption` is called with
`{ ...setOptionOptsRef.current, ...opts }`, a throw being routed to `onError`
when configured and rethrown otherwise. -/
def publicSetOption (instancePresent setOptionThrows hasOnError : Bool)
    (defaults overrides : Opts) : SetOptionRun :=
  if !instancePresent then ⟨false, [], false, false⟩
  else
    let finalOpts := mergeOpts defaults overrides
    if setOptionThrows then
      if hasOnError then ⟨true, finalOpts, true, false⟩
      else ⟨true, finalOpts, false, true⟩
    else ⟨true, finalOpts, false, false⟩

/-! ### Lazy activation gate — `src/hooks/use-lazy-init.ts` -/

/-- The `lazyInit` argument: the boolean `false`/`true` (absent defaults to
`false`) or an `IntersectionObserverInit` object. -/
inductive LazyOpt where
  | flag (b : Bool)
  | observerConfig
deriving DecidableEq, Repr

/-- `options !== false`: lazy mode is on for `true` and for any object. -/
def isLazyMode : LazyOpt → Bool
  | LazyOpt.flag b => b
  | LazyOpt.observerConfig => true

/-- Gate state: the `isInView` React state plus whether an intersection
observer is currently observing. -/
structure GateState where
  isInView : Bool
  observing : Bool
deriving DecidableEq, Repr

/-- `useState(!isLazyMode)`: seeded once, from the first render's options;
no observer exists yet. -/
def gateInitState (firstOpts : LazyOpt) : GateState :=
  ⟨!(isLazyMode firstOpts), false⟩

/-- Events driving the gate: a render with its effect pass (current options
and container availability), or an observer callback with the entry's
`isIntersecting` flag. -/
inductive GateEvent where
  | render (opts : LazyOpt) (elementPresent : Bool)
  | signal (isIntersecting : Bool)
deriving DecidableEq, Repr

/-- One gate transition.  The effect body skips (leaving no observer, the
previous one having been disconnected by cleanup) when lazy mode is off or
the gate is already in view or the container is absent; otherwise it
observes.  An observer callback with `isIntersecting` sets `isInView` and
disconnects; without an observer or without intersection nothing happens. -/
def gateStep (s : GateState) : GateEvent → GateState
  | GateEvent.render opts elementPresent =>
    if !(isLazyMode opts) || s.isInView then { s with observing := false }
    else if !elementPresent then { s with observing := false }
    else { s with observing := true }
  | GateEvent.signal isIntersecting =>
    if s.observing && isIntersecting then ⟨true, false⟩
    else s

/-- Run the gate from the first render's seeded state. -/
def runGate (firstOpts : LazyOpt) (events : List GateEvent) : GateState :=
  events.foldl gateStep (gateInitState firstOpts)

end ReactUseEcharts

namespace ReactUseEcharts

/-! ### Association list lemmas -/

theorem setEntry_cons {α β : Type} [DecidableEq α] (k : α) (w : β)
    (rest : List (α × β)) (a : α) (v : β) :
    setEntry ((k, w) :: rest) a v =
      (if k = a then (a, v) else (k, w)) :: setEntry rest a v := rfl

theorem deleteKey_cons {α β : Type} [DecidableEq α] (k : α) (w : β)
    (rest : List (α × β)) (a : α) :
    deleteKey ((k, w) :: rest) a =
      if k = a then deleteKey rest a else (k, w) :: deleteKey rest a := by
  by_cases hk : k = a <;> simp [deleteKey, hk]

theorem alookup_append {α β : Type} [DecidableEq α] (l₁ l₂ : List (α × β))
    (a : α) : alookup (l₁ ++ l₂) a = (alookup l₁ a).orElse (fun _ => alookup l₂ a) := by
  induction l₁ with
  | nil => simp [alookup]
  | cons p rest ih =>
    obtain ⟨k, v⟩ := p
    by_cases h : k = a <;> simp [alookup, h, ih]

theorem alookup_setEntry_self {α β : Type} [DecidableEq α]
    {l : List (α × β)} {a : α} {v₀ : β} (h : alookup l a = some v₀) (v : β) :
    alookup (setEntry l a v) a = some v := by
  induction l with
  | nil => simp [alookup] at h
  | cons p rest ih =>
    obtain ⟨k, w⟩ := p
    rw [setEntry_cons]
    by_cases hk : k = a
    · rw [if_pos hk]
      simp [alookup]
    · rw [if_neg hk]
      rw [alookup] at h ⊢
      rw [if_neg hk] at h ⊢
      exact ih h

theorem setEntry_of_none {α β : Type} [DecidableEq α]
    {l : List (α × β)} {a : α} (h : alookup l a = none) (v : β) :
    setEntry l a v = l := by
  induction l with
  | nil => rfl
  | cons p rest ih =>
    obtain ⟨k, w⟩ := p
    rw [alookup] at h
    by_cases hk : k = a
    · rw [if_pos hk] at h
      exact absurd h (by simp)
    · rw [if_neg hk] at h
      rw [setEntry_cons, if_neg hk, ih h]

theorem alookup_setEntry_ne {α β : Type} [DecidableEq α]
    (l : List (α × β)) (a : α) (v : β) {a' : α} (h : a' ≠ a) :
    alookup (setEntry l a v) a' = alookup l a' := by
  induction l with
  | nil => rfl
  | cons p rest ih =>
    obtain ⟨k, w⟩ := p
    rw [setEntry_cons]
    by_cases hk : k = a
    · subst hk
      rw [if_pos rfl]
      have hk' : ¬ k = a' := fun hh => h hh.symm
      simp [alookup, hk', ih]
    · rw [if_neg hk]
      by_cases hk' : k = a' <;> simp [alookup, hk', ih]

theorem alookup_deleteKey_self {α β : Type} [DecidableEq α]
    (l : List (α × β)) (a : α) : alookup (deleteKey l a) a = none := by
  induction l with
  | nil => rfl
  | cons p rest ih =>
    obtain ⟨k, w⟩ := p
    rw [deleteKey_cons]
    by_cases hk : k = a
    · rw [if_pos hk]; exact ih
    · rw [if_neg hk, alookup, if_neg hk]; exact ih

theorem alookup_deleteKey_ne {α β : Type} [DecidableEq α]
    (l : List (α × β)) (a : α) {a' : α} (h : a' ≠ a) :
    alookup (deleteKey l a) a' = alookup l a' := by
  induction l with
  | nil => rfl
  | cons p rest ih =>
    obtain ⟨k, w⟩ := p
    rw [deleteKey_cons]
    by_cases hk : k = a
    · subst hk
      have hk' : ¬ k = a' := fun hh => h hh.symm
      simp [alookup, hk', ih]
    · rw [if_neg hk]
      by_cases hk' : k = a' <;> simp [alookup, hk', ih]

theorem alookup_mem {α β : Type} [DecidableEq α]
    {l : List (α × β)} {a : α} {v : β} (h : alookup l a = some v) :
    (a, v) ∈ l := by
  induction l with
  | nil => simp [alookup] at h
  | cons p rest ih =>
    obtain ⟨k, w⟩ := p
    rw [alookup] at h
    by_cases hk : k = a
    · rw [if_pos hk] at h
      subst hk
      obtain rfl : w = v := by simpa using h
      exact List.mem_cons_self _ _
    · rw [if_neg hk] at h
      exact List.mem_cons_of_mem _ (ih h)

theorem mem_setEntry {α β : Type} [DecidableEq α]
    {l : List (α × β)} {a : α} {v : β} {q : α × β}
    (h : q ∈ setEntry l a v) : q ∈ l ∨ q = (a, v) := by
  unfold setEntry at h
  obtain ⟨p, hp, hq⟩ := List.mem_map.1 h
  by_cases hk : p.1 = a
  · right
    rw [if_pos hk] at hq
    exact hq.symm
  · left
    rw [if_neg hk] at hq
    exact hq ▸ hp

theorem mem_of_mem_deleteKey {α β : Type} [DecidableEq α]
    {l : List (α × β)} {a : α} {q : α × β}
    (h : q ∈ deleteKey l a) : q ∈ l :=
  List.mem_of_mem_filter h

/-! ### Instance cache invariant -/

theorem wfCache_nil : wfCache [] := by
  intro p hp; simp at hp

theorem wfCache_setCached {c : Cache} (hw : wfCache c) (el i : Nat) :
    wfCache (setCachedInstance c el i).1 := by
  unfold setCachedInstance
  cases h : alookup c el with
  | none =>
    intro p hp
    rcases List.mem_append.1 hp with hp | hp
    · exact hw p hp
    · simp at hp
      simp [hp]
  | some e =>
    intro p hp
    rcases mem_setEntry hp with hp | hp
    · exact hw p hp
    · simp [hp]

theorem wfCache_release {c : Cache} (hw : wfCache c) (el : Nat) :
    wfCache (releaseCachedInstance c el).1 := by
  unfold releaseCachedInstance
  cases h : alookup c el with
  | none => exact hw
  | some e =>
    by_cases hz : e.refCount - 1 = 0
    · simp only [hz, if_pos rfl]
      intro p hp
      exact hw p (mem_of_mem_deleteKey hp)
    · simp only [hz, if_neg hz]
      intro p hp
      rcases mem_setEntry hp with hp | hp
      · exact hw p hp
      · simp [hp]
        omega

theorem wfCache_run (el : Nat) (ops : List CacheOp) {c : Cache}
    (hw : wfCache c) : wfCache (runCacheOps el ops c).1 := by
  induction ops generalizing c with
  | nil => exact hw
  | cons op ops ih =>
    cases op with
    | acquire i => exact ih (wfCache_setCached hw el i)
    | release => exact ih (wfCache_release hw el)

/-- Claim C1: over any sequence of acquire (`setCachedInstance`) / release
(`releaseCachedInstance`) calls on one container starting from the empty
cache, every live entry has positive refcount; releasing an uncached container
is a no-op; a release from refcount `≥ 2` disposes nothing and just decrements;
the release that brings the refcount to 0 disposes exactly the cached instance
and removes the entry (so the reference count afterwards is 0 and the instance
cannot be disposed again); and acquires never dispose. -/
theorem refcount_dispose_exactly_once (el : Nat) (ops : List CacheOp)
    (c : Cache) (log : List Nat) (hrun : runCacheOps el ops [] = (c, log)) :
    (∀ el' e, alookup c el' = some e → 1 ≤ e.refCount) ∧
    (alookup c el = none → releaseCachedInstance c el = (c, [])) ∧
    (∀ e, alookup c el = some e → 2 ≤ e.refCount →
      (releaseCachedInstance c el).2 = [] ∧
      getReferenceCount (releaseCachedInstance c el).1 el = e.refCount - 1) ∧
    (∀ e, alookup c el = some e → e.refCount = 1 →
      (releaseCachedInstance c el).2 = [e.inst] ∧
      alookup (releaseCachedInstance c el).1 el = (none : Option CacheEntry) ∧
      getReferenceCount (releaseCachedInstance c el).1 el = 0) ∧
    (∀ i, (stepCacheOp el c (CacheOp.acquire i)).2 = []) := by
  have hw : wfCache c := by
    have := wfCache_run el ops (c := []) wfCache_nil
    rw [hrun] at this
    exact this
  refine ⟨?_, ?_, ?_, ?_, ?_⟩
  · intro el' e he
    exact hw _ (alookup_mem he)
  · intro h
    unfold releaseCachedInstance
    rw [h]
  · intro e he hge
    have hz : ¬ (e.refCount - 1 = 0) := by omega
    unfold releaseCachedInstance
    rw [he]
    simp only [if_neg hz]
    refine ⟨by trivial, ?_⟩
    unfold getReferenceCount
    rw [alookup_setEntry_self he]
  · intro e he h1
    have hz : e.refCount - 1 = 0 := by omega
    unfold releaseCachedInstance
    rw [he]
    simp only [if_pos hz]
    refine ⟨by trivial, alookup_deleteKey_self _ _, ?_⟩
    unfold getReferenceCount
    rw [alookup_deleteKey_self]
  · intro i
    rfl

/-- Witness for the refcount claim: after two acquires of container 0 the
entry is `⟨5, 2⟩`; releasing once disposes nothing and leaves refcount 1. -/
theorem refcount_dispose_exactly_once_witness :
    (releaseCachedInstance [(0, (⟨5, 2⟩ : CacheEntry))] 0).2 = [] ∧
    getReferenceCount (releaseCachedInstance [(0, (⟨5, 2⟩ : CacheEntry))] 0).1 0 = 1 :=
  (refcount_dispose_exactly_once 0 [CacheOp.acquire 5, CacheOp.acquire 6]
      [(0, ⟨5, 2⟩)] [] (by decide)).2.2.1 ⟨5, 2⟩ (by decide) (by decide)

/-- Claim C6, counterexample: from the reachable cache state obtained by
acquiring instance 5 twice on container 0 (entry `⟨5, 2⟩`),
`replaceCachedInstance` with a new instance 7 disposes nothing at all — in
particular the displaced instance 5 is not disposed, contradicting the claim
that replace disposes the currently cached instance. -/
theorem replace_does_not_dispose_counterexample :
    (runCacheOps 0 [CacheOp.acquire 5, CacheOp.acquire 5] []).1 =
      [(0, (⟨5, 2⟩ : CacheEntry))] ∧
    (replaceCachedInstance [(0, (⟨5, 2⟩ : CacheEntry))] 0 7).2.2 = [] ∧
    ¬ 5 ∈ (replaceCachedInstance [(0, (⟨5, 2⟩ : CacheEntry))] 0 7).2.2 := by
  refine ⟨by decide, by decide, by decide⟩

/-- Claim C6 as amended: `replaceCachedInstance` installs the new instance
under the unchanged reference count when an entry exists — without any
`dispose()` call on the displaced instance — and creates an entry with
`refCount = 1` when none existed. -/
theorem replace_keeps_refcount_no_dispose (c : Cache) (el i : Nat) :
    (∀ e, alookup c el = some e →
      (replaceCachedInstance c el i).2.2 = [] ∧
      alookup (replaceCachedInstance c el i).1 el = some ⟨i, e.refCount⟩ ∧
      getReferenceCount (replaceCachedInstance c el i).1 el = e.refCount) ∧
    (alookup c el = none →
      (replaceCachedInstance c el i).2.2 = [] ∧
      alookup (replaceCachedInstance c el i).1 el = some ⟨i, 1⟩) := by
  constructor
  · intro e he
    unfold replaceCachedInstance
    rw [he]
    refine ⟨rfl, ?_, ?_⟩
    · exact alookup_setEntry_self he _
    · unfold getReferenceCount
      rw [alookup_setEntry_self he]
  · intro h
    unfold replaceCachedInstance
    rw [h]
    refine ⟨rfl, ?_⟩
    rw [alookup_append, h]
    simp [alookup]

/-- Witness for the amended replace claim at the concrete entry `⟨5, 2⟩`. -/
theorem replace_keeps_refcount_no_dispose_witness :
    (replaceCachedInstance [(0, (⟨5, 2⟩ : CacheEntry))] 0 7).2.2 = [] ∧
    alookup (replaceCachedInstance [(0, (⟨5, 2⟩ : CacheEntry))] 0 7).1 0 =
      some (⟨7, 2⟩ : CacheEntry) ∧
    getReferenceCount (replaceCachedInstance [(0, (⟨5, 2⟩ : CacheEntry))] 0 7).1 0 = 2 :=
  (replace_keeps_refcount_no_dispose [(0, ⟨5, 2⟩)] 0 7).1 ⟨5, 2⟩ (by decide)

/-- Claim C9: `clearInstanceCache` has an empty body — on the reachable cache
holding instance 5 for container 0 at refcount 1 it disposes nothing and
leaves the entry (and its reference count) untouched, contradicting the claim
that every tracked instance is disposed and every refcount drops to 0. -/
theorem clearInstanceCache_is_noop :
    (runCacheOps 0 [CacheOp.acquire 5] []).1 = [(0, (⟨5, 1⟩ : CacheEntry))] ∧
    clearInstanceCache [(0, (⟨5, 1⟩ : CacheEntry))] =
      ([(0, (⟨5, 1⟩ : CacheEntry))], []) ∧
    getReferenceCount (clearInstanceCache [(0, (⟨5, 1⟩ : CacheEntry))]).1 0 = 1 := by
  refine ⟨by decide, by decide, by decide⟩

/-! ### Group registry lemmas -/

theorem alookup_append_single_ne {α β : Type} [DecidableEq α]
    (l : List (α × β)) (a : α) (v : β) {a' : α} (h : a' ≠ a) :
    alookup (l ++ [(a, v)]) a' = alookup l a' := by
  rw [alookup_append]
  cases hl : alookup l a' with
  | some w => rfl
  | none =>
    have hne : ¬ a = a' := fun hh => h hh.symm
    simp [alookup, Option.orElse, hne]

theorem mem_connectCall_self (conn : List String) (g : String) :
    g ∈ connectCall conn g := by
  by_cases h : g ∈ conn <;> simp [connectCall, h]

theorem mem_connectCall_iff (conn : List String) (g : String) {q : String}
    (h : q ≠ g) : q ∈ connectCall conn g ↔ q ∈ conn := by
  by_cases hg : g ∈ conn <;> simp [connectCall, hg, h]

theorem not_mem_disconnectCall_self (conn : List String) (g : String) :
    g ∉ disconnectCall conn g := by
  simp [disconnectCall]

theorem mem_disconnectCall_iff (conn : List String) (g : String) {q : String}
    (h : q ≠ g) : q ∈ disconnectCall conn g ↔ q ∈ conn := by
  simp [disconnectCall, h]

theorem length_le_length_addMem (mem : List Nat) (i : Nat) :
    mem.length ≤ (addMem mem i).length := by
  by_cases h : i ∈ mem <;> simp [addMem, h]

theorem addToGroup_lookup_self (r : GroupReg) (i : Nat) (g : String) :
    alookup (addToGroup r i g).groups g =
      some (addMem (getGroupInstances r g) i) := by
  unfold addToGroup getGroupInstances
  cases h0 : alookup r.groups g with
  | some m =>
    simp only [h0, Option.isSome_some, if_pos, Option.getD_some]
    exact alookup_setEntry_self h0 _
  | none =>
    have hap : alookup (r.groups ++ [(g, ([] : List Nat))]) g = some [] := by
      rw [alookup_append, h0]
      simp [alookup, Option.orElse]
    simp only [h0, Option.isSome_none, Bool.false_eq_true, if_false, hap,
      Option.getD_some, Option.getD_none]
    exact alookup_setEntry_self hap _

theorem addToGroup_lookup_ne (r : GroupReg) (i : Nat) (g : String)
    {q : String} (hq : q ≠ g) :
    alookup (addToGroup r i g).groups q = alookup r.groups q := by
  unfold addToGroup
  cases h0 : alookup r.groups g with
  | some m =>
    simp only [h0, Option.isSome_some, if_pos]
    exact alookup_setEntry_ne _ _ _ hq
  | none =>
    simp only [h0, Option.isSome_none, Bool.false_eq_true, if_false]
    rw [alookup_setEntry_ne _ _ _ hq, alookup_append_single_ne _ _ _ hq]

theorem addToGroup_connected (r : GroupReg) (i : Nat) (g : String) :
    (addToGroup r i g).connected =
      if 1 < (addMem (getGroupInstances r g) i).length
      then connectCall r.connected g else r.connected := by
  unfold addToGroup getGroupInstances
  cases h0 : alookup r.groups g with
  | some m =>
    simp only [h0, Option.isSome_some, if_pos, Option.getD_some]
  | none =>
    have hap : alookup (r.groups ++ [(g, ([] : List Nat))]) g = some [] := by
      rw [alookup_append, h0]
      simp [alookup, Option.orElse]
    simp only [h0, Option.isSome_none, Bool.false_eq_true, if_false, hap,
      Option.getD_some, Option.getD_none]

theorem removeFromGroup_of_none {r : GroupReg} {g : String}
    (h : alookup r.groups g = none) (i : Nat) :
    removeFromGroup r i g = r := by
  unfold removeFromGroup
  rw [h]

theorem removeFromGroup_lookup_self {r : GroupReg} {g : String} {mem : List Nat}
    (h : alookup r.groups g = some mem) (i : Nat) :
    alookup (removeFromGroup r i g).groups g =
      if (mem.erase i).length = 0 then none else some (mem.erase i) := by
  unfold removeFromGroup
  rw [h]
  by_cases hz : (mem.erase i).length = 0
  · simp only [hz, if_pos rfl, if_pos hz]
    exact alookup_deleteKey_self _ _
  · simp only [if_neg hz]
    exact alookup_setEntry_self h _

theorem removeFromGroup_lookup_ne {r : GroupReg} {g : String} {mem : List Nat}
    (h : alookup r.groups g = some mem) (i : Nat) {q : String} (hq : q ≠ g) :
    alookup (removeFromGroup r i g).groups q = alookup r.groups q := by
  unfold removeFromGroup
  rw [h]
  by_cases hz : (mem.erase i).length = 0
  · simp only [hz, if_pos rfl]
    exact alookup_deleteKey_ne _ _ hq
  · simp only [if_neg hz]
    exact alookup_setEntry_ne _ _ _ hq

theorem removeFromGroup_connected {r : GroupReg} {g : String} {mem : List Nat}
    (h : alookup r.groups g = some mem) (i : Nat) :
    (removeFromGroup r i g).connected =
      if (mem.erase i).length = 0 then disconnectCall r.connected g
      else if (mem.erase i).length = 1 then disconnectCall r.connected g
      else connectCall r.connected g := by
  unfold removeFromGroup
  rw [h]

theorem connectConsistent_empty : connectConsistent emptyGroupReg := by
  intro g
  simp [emptyGroupReg, getGroupInstances, alookup]

theorem connectConsistent_add {r : GroupReg} (hr : connectConsistent r)
    (i : Nat) (g : String) : connectConsistent (addToGroup r i g) := by
  intro q
  by_cases hq : q = g
  · subst hq
    rw [getGroupInstances, addToGroup_lookup_self, Option.getD_some,
      addToGroup_connected]
    by_cases hb : 1 < (addMem (getGroupInstances r q) i).length
    · rw [if_pos hb]
      constructor
      · intro _; omega
      · intro _; exact mem_connectCall_self _ _
    · rw [if_neg hb]
      have hold := hr q
      have hmono := length_le_length_addMem (getGroupInstances r q) i
      constructor
      · intro hc
        have := hold.mp hc
        omega
      · intro h2
        omega
  · rw [getGroupInstances, addToGroup_lookup_ne r i g hq, addToGroup_connected]
    by_cases hb : 1 < (addMem (getGroupInstances r g) i).length
    · rw [if_pos hb, mem_connectCall_iff _ _ hq]
      exact hr q
    · rw [if_neg hb]
      exact hr q

theorem connectConsistent_remove {r : GroupReg} (hr : connectConsistent r)
    (i : Nat) (g : String) : connectConsistent (removeFromGroup r i g) := by
  cases h0 : alookup r.groups g with
  | none => rw [removeFromGroup_of_none h0]; exact hr
  | some mem =>
    intro q
    by_cases hq : q = g
    · subst hq
      rw [getGroupInstances, removeFromGroup_lookup_self h0,
        removeFromGroup_connected h0]
      by_cases hz : (mem.erase i).length = 0
      · rw [if_pos hz, if_pos hz]
        simp [not_mem_disconnectCall_self]
      · rw [if_neg hz, if_neg hz, Option.getD_some]
        by_cases h1 : (mem.erase i).length = 1
        · rw [if_pos h1, h1]
          simp [not_mem_disconnectCall_self]
        · rw [if_neg h1]
          constructor
          · intro _; omega
          · intro _; exact mem_connectCall_self _ _
    · rw [getGroupInstances, removeFromGroup_lookup_ne h0 i hq,
        removeFromGroup_connected h0]
      by_cases hz : (mem.erase i).length = 0
      · rw [if_pos hz, mem_disconnectCall_iff _ _ hq]
        exact hr q
      · rw [if_neg hz]
        by_cases h1 : (mem.erase i).length = 1
        · rw [if_pos h1, mem_disconnectCall_iff _ _ hq]
          exact hr q
        · rw [if_neg h1, mem_connectCall_iff _ _ hq]
          exact hr q

theorem connectConsistent_update {r : GroupReg} (hr : connectConsistent r)
    (i : Nat) (og ng : Option String) :
    connectConsistent (updateGroup r i og ng) := by
  unfold updateGroup
  have h1 : connectConsistent (match og with
      | some g => removeFromGroup r i g
      | none => r) := by
    cases og with
    | some g => exact connectConsistent_remove hr i g
    | none => exact hr
  cases ng with
  | some g => exact connectConsistent_add h1 i g
  | none => exact h1

theorem connectConsistent_run (ops : List GroupOp) {r : GroupReg}
    (hr : connectConsistent r) : connectConsistent (runGroupOps ops r) := by
  induction ops generalizing r with
  | nil => exact hr
  | cons op ops ih =>
    cases op with
    | join i g => exact ih (connectConsistent_add hr i g)
    | leave i g => exact ih (connectConsistent_remove hr i g)
    | move i og ng => exact ih (connectConsistent_update hr i og ng)

/-- Claim C2: over every sequence of join/leave/move operations from the empty
registry, a group's engine `connect` is in effect iff the group has at least
two members; moreover a join issues `connect` exactly when the resulting size
exceeds 1, and a leave on a known group issues `disconnect` when 0 or 1
members remain and re-issues `connect` when two or more remain. -/
theorem group_connect_iff_two_members :
    (∀ ops g, g ∈ (runGroupOps ops emptyGroupReg).connected ↔
        2 ≤ (getGroupInstances (runGroupOps ops emptyGroupReg) g).length) ∧
    (∀ r : GroupReg, ∀ i g, (addToGroup r i g).connected =
        if 1 < (addMem (getGroupInstances r g) i).length
        then connectCall r.connected g else r.connected) ∧
    (∀ r : GroupReg, ∀ i g, (alookup r.groups g).isSome →
        (removeFromGroup r i g).connected =
          if ((getGroupInstances r g).erase i).length = 0
          then disconnectCall r.connected g
          else if ((getGroupInstances r g).erase i).length = 1
          then disconnectCall r.connected g
          else connectCall r.connected g) ∧
    (∀ r : GroupReg, ∀ i g, alookup r.groups g = none →
        removeFromGroup r i g = r) := by
  refine ⟨?_, ?_, ?_, ?_⟩
  · intro ops g
    exact connectConsistent_run ops connectConsistent_empty g
  · intro r i g
    exact addToGroup_connected r i g
  · intro r i g hs
    obtain ⟨mem, hm⟩ := Option.isSome_iff_exists.mp hs
    rw [removeFromGroup_connected hm i]
    unfold getGroupInstances
    rw [hm, Option.getD_some]
  · intro r i g h
    exact removeFromGroup_of_none h i

/-- Witness for the group cardinality claim: after `I1` and `I2` join group
`"G"`, the connect for `"G"` is in effect, and removing `I1` disconnects it. -/
theorem group_connect_iff_two_members_witness :
    "G" ∈ (runGroupOps [GroupOp.join 1 "G", GroupOp.join 2 "G"]
        emptyGroupReg).connected ∧
    "G" ∉ (runGroupOps [GroupOp.join 1 "G", GroupOp.join 2 "G",
        GroupOp.leave 1 "G"] emptyGroupReg).connected := by
  constructor
  · exact (group_connect_iff_two_members.1 [GroupOp.join 1 "G",
      GroupOp.join 2 "G"] "G").mpr (by decide)
  · intro hmem
    have h2 := (group_connect_iff_two_members.1 [GroupOp.join 1 "G",
      GroupOp.join 2 "G", GroupOp.leave 1 "G"] "G").mp hmem
    revert h2
    decide

/-! ### Exclusive membership (claim C8) -/

theorem keys_setEntry {α β : Type} [DecidableEq α] (l : List (α × β)) (a : α)
    (v : β) : (setEntry l a v).map Prod.fst = l.map Prod.fst := by
  induction l with
  | nil => rfl
  | cons p rest ih =>
    obtain ⟨k, w⟩ := p
    rw [setEntry_cons]
    by_cases hk : k = a
    · subst hk
      rw [if_pos rfl]
      simp [ih]
    · rw [if_neg hk]
      simp [ih]

theorem alookup_eq_none_iff {α β : Type} [DecidableEq α] (l : List (α × β))
    (a : α) : alookup l a = none ↔ a ∉ l.map Prod.fst := by
  induction l with
  | nil => simp [alookup]
  | cons p rest ih =>
    obtain ⟨k, w⟩ := p
    by_cases hk : k = a
    · subst hk
      simp [alookup]
    · have hne : ¬ a = k := fun h => hk h.symm
      simp [alookup, hk, hne, ih]

theorem alookup_of_keysNodup {α β : Type} [DecidableEq α] {l : List (α × β)}
    (hk : (l.map Prod.fst).Nodup) {p : α × β} (hp : p ∈ l) :
    alookup l p.1 = some p.2 := by
  induction l with
  | nil => simp at hp
  | cons q rest ih =>
    obtain ⟨k, w⟩ := q
    simp only [List.map_cons] at hk
    obtain ⟨hnotin, hrest⟩ := List.nodup_cons.1 hk
    rcases List.mem_cons.1 hp with h | h
    · subst h
      simp [alookup]
    · have hne : ¬ k = p.1 := by
        intro hh
        exact hnotin (hh ▸ List.mem_map_of_mem Prod.fst h)
      rw [alookup, if_neg hne]
      exact ih hrest h

theorem mem_addMem_iff (mem : List Nat) (i j : Nat) :
    j ∈ addMem mem i ↔ j ∈ mem ∨ j = i := by
  by_cases h : i ∈ mem
  · rw [addMem, if_pos h]
    constructor
    · exact Or.inl
    · rintro (hj | rfl)
      · exact hj
      · exact h
  · rw [addMem, if_neg h]
    simp

theorem addMem_nodup {mem : List Nat} (h : mem.Nodup) (i : Nat) :
    (addMem mem i).Nodup := by
  by_cases hi : i ∈ mem
  · rw [addMem, if_pos hi]
    exact h
  · rw [addMem, if_neg hi]
    simp [List.nodup_append, h, hi]

theorem addToGroup_groups_eq (r : GroupReg) (i : Nat) (g : String) :
    (addToGroup r i g).groups =
      setEntry (if (alookup r.groups g).isSome then r.groups
        else r.groups ++ [(g, ([] : List Nat))]) g
        (addMem (getGroupInstances r g) i) := by
  unfold addToGroup getGroupInstances
  cases h0 : alookup r.groups g with
  | some m => simp only [h0, Option.isSome_some, if_pos, Option.getD_some]
  | none =>
    have hap : alookup (r.groups ++ [(g, ([] : List Nat))]) g = some [] := by
      rw [alookup_append, h0]
      simp [alookup, Option.orElse]
    simp only [h0, Option.isSome_none, Bool.false_eq_true, if_false, hap,
      Option.getD_some, Option.getD_none]

theorem getInstanceGroup_eq_none {r : GroupReg} {i : Nat}
    (h : getInstanceGroup r i = none) (g : String) :
    i ∉ getGroupInstances r g := by
  unfold getInstanceGroup at h
  have hfind : r.groups.find? (fun p => decide (i ∈ p.2)) = none := by
    cases hf : r.groups.find? (fun p => decide (i ∈ p.2)) with
    | none => rfl
    | some p =>
      rw [hf] at h
      simp at h
  have hall := List.find?_eq_none.1 hfind
  unfold getGroupInstances
  cases hl : alookup r.groups g with
  | none => simp
  | some mem =>
    have hmem := alookup_mem hl
    have := hall _ hmem
    simpa using this

theorem getInstanceGroup_eq_some {r : GroupReg} {i : Nat} {og : String}
    (h : getInstanceGroup r i = some og) (hk : keysNodup r) :
    i ∈ getGroupInstances r og := by
  unfold getInstanceGroup at h
  cases hf : r.groups.find? (fun p => decide (i ∈ p.2)) with
  | none =>
    rw [hf] at h
    simp at h
  | some p =>
    rw [hf] at h
    simp only [Option.map_some', Option.some_inj] at h
    have hp : p ∈ r.groups := List.mem_of_find?_eq_some hf
    have hi : i ∈ p.2 := by simpa using List.find?_some hf
    have hlook := alookup_of_keysNodup hk hp
    unfold getGroupInstances
    rw [← h, hlook]
    simpa using hi

theorem removeFromGroup_member_subset (r : GroupReg) (i : Nat) (g : String)
    {j : Nat} {q : String}
    (h : j ∈ getGroupInstances (removeFromGroup r i g) q) :
    j ∈ getGroupInstances r q := by
  cases h0 : alookup r.groups g with
  | none => rwa [removeFromGroup_of_none h0] at h
  | some mem =>
    by_cases hq : q = g
    · subst hq
      unfold getGroupInstances at h ⊢
      rw [removeFromGroup_lookup_self h0] at h
      rw [h0, Option.getD_some]
      by_cases hz : (mem.erase i).length = 0
      · rw [if_pos hz] at h
        simp at h
      · rw [if_neg hz, Option.getD_some] at h
        exact List.erase_subset _ _ h
    · unfold getGroupInstances at h
      rwa [removeFromGroup_lookup_ne h0 i hq] at h

theorem discipline_remove_clears {r : GroupReg} (hinv : groupInv r) {i : Nat}
    {og : String} (hog : getInstanceGroup r i = some og) (q : String) :
    i ∉ getGroupInstances (removeFromGroup r i og) q := by
  obtain ⟨hK, hM, hE⟩ := hinv
  have hi : i ∈ getGroupInstances r og := getInstanceGroup_eq_some hog hK
  cases h0 : alookup r.groups og with
  | none =>
    unfold getGroupInstances at hi
    rw [h0] at hi
    simp at hi
  | some mem =>
    have hmemnodup : mem.Nodup := hM _ (alookup_mem h0)
    by_cases hq : q = og
    · subst hq
      unfold getGroupInstances
      rw [removeFromGroup_lookup_self h0]
      by_cases hz : (mem.erase i).length = 0
      · rw [if_pos hz]
        simp
      · rw [if_neg hz, Option.getD_some]
        intro hcon
        exact ((List.Nodup.mem_erase_iff hmemnodup).1 hcon).1 rfl
    · intro hcon
      have hmem2 : i ∈ getGroupInstances r q := by
        unfold getGroupInstances at hcon ⊢
        rwa [removeFromGroup_lookup_ne h0 i hq] at hcon
      exact hq (hE i q og hmem2 hi)

theorem addToGroup_member_self (r : GroupReg) (i : Nat) (g : String) (j : Nat) :
    j ∈ getGroupInstances (addToGroup r i g) g ↔
      j ∈ getGroupInstances r g ∨ j = i := by
  have h := addToGroup_lookup_self r i g
  unfold getGroupInstances
  rw [h, Option.getD_some]
  exact mem_addMem_iff _ _ _

theorem addToGroup_member_ne (r : GroupReg) (i : Nat) (g : String) {q : String}
    (hq : q ≠ g) (j : Nat) :
    j ∈ getGroupInstances (addToGroup r i g) q ↔ j ∈ getGroupInstances r q := by
  unfold getGroupInstances
  rw [addToGroup_lookup_ne r i g hq]

theorem keysNodup_add {r : GroupReg} (hK : keysNodup r) (i : Nat) (g : String) :
    keysNodup (addToGroup r i g) := by
  unfold keysNodup at hK ⊢
  rw [addToGroup_groups_eq, keys_setEntry]
  by_cases h0 : (alookup r.groups g).isSome
  · rw [if_pos h0]
    exact hK
  · rw [if_neg h0]
    have hg : g ∉ r.groups.map Prod.fst := by
      have hnone : alookup r.groups g = none :=
        Option.not_isSome_iff_eq_none.1 h0
      exact (alookup_eq_none_iff _ _).1 hnone
    rw [List.map_append]
    simp [List.nodup_append, hK, hg]

theorem memNodup_add {r : GroupReg} (hM : memNodup r) (i : Nat) (g : String) :
    memNodup (addToGroup r i g) := by
  intro p hp
  rw [addToGroup_groups_eq] at hp
  have hmem : (getGroupInstances r g).Nodup := by
    unfold getGroupInstances
    cases hl : alookup r.groups g with
    | none => simp
    | some m =>
      rw [Option.getD_some]
      exact hM _ (alookup_mem hl)
  rcases mem_setEntry hp with hp' | hp'
  · by_cases h0 : (alookup r.groups g).isSome
    · rw [if_pos h0] at hp'
      exact hM p hp'
    · rw [if_neg h0] at hp'
      rcases List.mem_append.1 hp' with hh | hh
      · exact hM p hh
      · simp only [List.mem_singleton] at hh
        rw [hh]
        exact List.nodup_nil
  · rw [hp']
    exact addMem_nodup hmem i

theorem removeFromGroup_groups_eq {r : GroupReg} {g : String} {mem : List Nat}
    (h : alookup r.groups g = some mem) (i : Nat) :
    (removeFromGroup r i g).groups =
      if (mem.erase i).length = 0 then deleteKey r.groups g
      else setEntry r.groups g (mem.erase i) := by
  unfold removeFromGroup
  rw [h]

theorem keysNodup_remove {r : GroupReg} (hK : keysNodup r) (i : Nat)
    (g : String) : keysNodup (removeFromGroup r i g) := by
  cases h0 : alookup r.groups g with
  | none => rwa [removeFromGroup_of_none h0]
  | some mem =>
    unfold keysNodup at hK ⊢
    rw [removeFromGroup_groups_eq h0 i]
    by_cases hz : (mem.erase i).length = 0
    · rw [if_pos hz]
      have hsub : List.Sublist ((deleteKey r.groups g).map Prod.fst)
          (r.groups.map Prod.fst) :=
        List.Sublist.map _ (List.filter_sublist _)
      exact List.Nodup.sublist hsub hK
    · rw [if_neg hz, keys_setEntry]
      exact hK

theorem memNodup_remove {r : GroupReg} (hM : memNodup r) (i : Nat)
    (g : String) : memNodup (removeFromGroup r i g) := by
  cases h0 : alookup r.groups g with
  | none => rwa [removeFromGroup_of_none h0]
  | some mem =>
    intro p hp
    rw [removeFromGroup_groups_eq h0 i] at hp
    by_cases hz : (mem.erase i).length = 0
    · rw [if_pos hz] at hp
      exact hM p (mem_of_mem_deleteKey hp)
    · rw [if_neg hz] at hp
      rcases mem_setEntry hp with hp' | hp'
      · exact hM p hp'
      · rw [hp']
        exact List.Nodup.erase i (hM _ (alookup_mem h0))

theorem groupInv_add_free {r : GroupReg} (hinv : groupInv r) {i : Nat}
    (hfree : ∀ q, i ∉ getGroupInstances r q) (g : String) :
    groupInv (addToGroup r i g) := by
  obtain ⟨hK, hM, hE⟩ := hinv
  refine ⟨keysNodup_add hK i g, memNodup_add hM i g, ?_⟩
  intro j q₁ q₂ h1 h2
  by_cases hj : j = i
  · subst hj
    have hq1 : q₁ = g := by
      by_contra hne
      exact hfree q₁ ((addToGroup_member_ne r j g hne j).1 h1)
    have hq2 : q₂ = g := by
      by_contra hne
      exact hfree q₂ ((addToGroup_member_ne r j g hne j).1 h2)
    rw [hq1, hq2]
  · have h1' : j ∈ getGroupInstances r q₁ := by
      by_cases hq : q₁ = g
      · subst hq
        rcases (addToGroup_member_self r i q₁ j).1 h1 with hh | hh
        · exact hh
        · exact absurd hh hj
      · exact (addToGroup_member_ne r i g hq j).1 h1
    have h2' : j ∈ getGroupInstances r q₂ := by
      by_cases hq : q₂ = g
      · subst hq
        rcases (addToGroup_member_self r i q₂ j).1 h2 with hh | hh
        · exact hh
        · exact absurd hh hj
      · exact (addToGroup_member_ne r i g hq j).1 h2
    exact hE j q₁ q₂ h1' h2'

theorem groupInv_remove_current {r : GroupReg} (hinv : groupInv r) {i : Nat}
    {og : String} (hog : getInstanceGroup r i = some og) :
    groupInv (removeFromGroup r i og) ∧
      (∀ q, i ∉ getGroupInstances (removeFromGroup r i og) q) := by
  obtain ⟨hK, hM, hE⟩ := hinv
  refine ⟨⟨keysNodup_remove hK i og, memNodup_remove hM i og, ?_⟩,
    discipline_remove_clears ⟨hK, hM, hE⟩ hog⟩
  intro j q₁ q₂ h1 h2
  exact hE j q₁ q₂ (removeFromGroup_member_subset r i og h1)
    (removeFromGroup_member_subset r i og h2)

theorem groupInv_discipline_step {r : GroupReg} (hinv : groupInv r) (i : Nat)
    (ng : Option String) :
    groupInv (updateGroup r i (getInstanceGroup r i) ng) := by
  cases hog : getInstanceGroup r i with
  | none =>
    have hfree := getInstanceGroup_eq_none hog
    cases ng with
    | none => exact hinv
    | some g => exact groupInv_add_free hinv hfree g
  | some og =>
    obtain ⟨hinv1, hfree⟩ := groupInv_remove_current hinv hog
    cases ng with
    | none => exact hinv1
    | some g => exact groupInv_add_free hinv1 hfree g

theorem groupInv_empty : groupInv emptyGroupReg := by
  refine ⟨List.nodup_nil, ?_, ?_⟩
  · intro p hp
    simp [emptyGroupReg] at hp
  · intro i g₁ g₂ h1 h2
    simp [getGroupInstances, emptyGroupReg, alookup] at h1

theorem groupInv_runMoves (moves : List (Nat × Option String)) {r : GroupReg}
    (hinv : groupInv r) : groupInv (runMoves moves r) := by
  induction moves generalizing r with
  | nil => exact hinv
  | cons mv rest ih =>
    obtain ⟨i, ng⟩ := mv
    exact ih (groupInv_discipline_step hinv i ng)

/-- Claim C8, counterexample: the registry itself does not enforce exclusive
membership — two raw `addToGroup` calls put instance 1 in both group `"a"`
and group `"b"` simultaneously. -/
theorem exclusive_membership_counterexample :
    1 ∈ getGroupInstances
      (runGroupOps [GroupOp.join 1 "a", GroupOp.join 1 "b"] emptyGroupReg) "a" ∧
    1 ∈ getGroupInstances
      (runGroupOps [GroupOp.join 1 "a", GroupOp.join 1 "b"] emptyGroupReg) "b" ∧
    "a" ≠ "b" := by
  decide

/-- Claim C8 as amended: `updateGroup` always leaves the old group before
joining the new one, and along every sequence of `updateGroup` operations
whose old-group argument is the instance's actual current group (the
discipline followed by every call site in `use-echarts.ts`), an instance
belongs to at most one group at a time. -/
theorem exclusive_membership_discipline :
    (∀ (r : GroupReg) (i : Nat) (og ng : String),
      updateGroup r i (some og) (some ng) =
        addToGroup (removeFromGroup r i og) i ng) ∧
    (∀ (moves : List (Nat × Option String)) (i : Nat) (g₁ g₂ : String),
      i ∈ getGroupInstances (runMoves moves emptyGroupReg) g₁ →
      i ∈ getGroupInstances (runMoves moves emptyGroupReg) g₂ → g₁ = g₂) := by
  constructor
  · intro r i og ng
    rfl
  · intro moves i g₁ g₂ h1 h2
    exact (groupInv_runMoves moves groupInv_empty).2.2 i g₁ g₂ h1 h2

/-- Witness: moving instance 1 from group `"A"` to `"B"` leaves it a member
of exactly the single group `"B"`. -/
theorem exclusive_membership_discipline_witness :
    1 ∈ getGroupInstances
      (runMoves [(1, some "A"), (1, some "B")] emptyGroupReg) "B" ∧
    "B" = "B" :=
  ⟨by decide, exclusive_membership_discipline.2 [(1, some "A"), (1, some "B")]
    1 "B" "B" (by decide) (by decide)⟩

/-! ### Theme registry lemmas (claim C3) -/

theorem getOrRegister_refHit {contentOf : Nat → String} {s : ThemeState}
    {ref : Nat} {n : String} (h : alookup s.refCache ref = some n) :
    getOrRegisterCustomTheme contentOf s ref = (s, n) := by
  unfold getOrRegisterCustomTheme
  rw [h]

theorem getOrRegister_contentHit {contentOf : Nat → String} {s : ThemeState}
    {ref : Nat} {n : String} (h1 : alookup s.refCache ref = none)
    (h2 : alookup s.contentCache (contentOf ref) = some n) :
    getOrRegisterCustomTheme contentOf s ref =
      ({ s with refCache := s.refCache ++ [(ref, n)] }, n) := by
  simp only [getOrRegisterCustomTheme, h1, h2]

theorem getOrRegister_miss {contentOf : Nat → String} {s : ThemeState}
    {ref : Nat} (h1 : alookup s.refCache ref = none)
    (h2 : alookup s.contentCache (contentOf ref) = none) :
    getOrRegisterCustomTheme contentOf s ref =
      ({ refCache :=
           s.refCache ++ [(ref, "__custom_theme_" ++ toString s.counter)],
         contentCache :=
           s.contentCache ++
             [(contentOf ref, "__custom_theme_" ++ toString s.counter)],
         counter := s.counter + 1,
         registrations :=
           s.registrations ++
             [("__custom_theme_" ++ toString s.counter, contentOf ref)] },
       "__custom_theme_" ++ toString s.counter) := by
  simp only [getOrRegisterCustomTheme, h1, h2]

theorem alookup_append_some {α β : Type} [DecidableEq α]
    {l : List (α × β)} {a : α} {v : β} (h : alookup l a = some v)
    (l₂ : List (α × β)) : alookup (l ++ l₂) a = some v := by
  rw [alookup_append, h]
  rfl

theorem themeInv_initial (contentOf : Nat → String) :
    themeInv contentOf initialThemeState := by
  refine ⟨?_, rfl, List.nodup_nil⟩
  intro p hp
  simp [initialThemeState] at hp

theorem getOrRegister_mono {contentOf : Nat → String} {s : ThemeState}
    (ref : Nat) {c n : String} (h : alookup s.contentCache c = some n) :
    alookup (getOrRegisterCustomTheme contentOf s ref).1.contentCache c =
      some n := by
  cases h1 : alookup s.refCache ref with
  | some m =>
    rw [getOrRegister_refHit h1]
    exact h
  | none =>
    cases h2 : alookup s.contentCache (contentOf ref) with
    | some m =>
      rw [getOrRegister_contentHit h1 h2]
      exact h
    | none =>
      rw [getOrRegister_miss h1 h2]
      exact alookup_append_some h _

theorem getOrRegister_inv {contentOf : Nat → String} {s : ThemeState}
    (hinv : themeInv contentOf s) (ref : Nat) :
    themeInv contentOf (getOrRegisterCustomTheme contentOf s ref).1 := by
  obtain ⟨ha, hb, hc⟩ := hinv
  cases h1 : alookup s.refCache ref with
  | some m =>
    rw [getOrRegister_refHit h1]
    exact ⟨ha, hb, hc⟩
  | none =>
    cases h2 : alookup s.contentCache (contentOf ref) with
    | some m =>
      rw [getOrRegister_contentHit h1 h2]
      refine ⟨?_, hb, hc⟩
      intro p hp
      rcases List.mem_append.1 hp with hp' | hp'
      · exact ha p hp'
      · simp only [List.mem_singleton] at hp'
        rw [hp']
        exact h2
    | none =>
      rw [getOrRegister_miss h1 h2]
      refine ⟨?_, ?_, ?_⟩
      · intro p hp
        rcases List.mem_append.1 hp with hp' | hp'
        · exact alookup_append_some (ha p hp') _
        · simp only [List.mem_singleton] at hp'
          rw [hp']
          rw [alookup_append, h2]
          simp [alookup, Option.orElse]
      · simp [hb]
      · simp only [List.map_append]
        have hg : contentOf ref ∉ s.contentCache.map Prod.fst :=
          (alookup_eq_none_iff _ _).1 h2
        simp [List.nodup_append, hc, hg]

theorem getOrRegister_result {contentOf : Nat → String} {s : ThemeState}
    (hinv : themeInv contentOf s) (ref : Nat) :
    alookup (getOrRegisterCustomTheme contentOf s ref).1.contentCache
      (contentOf ref) = some (getOrRegisterCustomTheme contentOf s ref).2 := by
  obtain ⟨ha, _, _⟩ := hinv
  cases h1 : alookup s.refCache ref with
  | some m =>
    rw [getOrRegister_refHit h1]
    exact ha _ (alookup_mem h1)
  | none =>
    cases h2 : alookup s.contentCache (contentOf ref) with
    | some m =>
      rw [getOrRegister_contentHit h1 h2]
      exact h2
    | none =>
      rw [getOrRegister_miss h1 h2]
      rw [alookup_append, h2]
      simp [alookup, Option.orElse]

theorem getOrRegister_none_iff {contentOf : Nat → String} {s : ThemeState}
    (hinv : themeInv contentOf s) (ref : Nat) (c : String) :
    alookup (getOrRegisterCustomTheme contentOf s ref).1.contentCache c = none ↔
      (alookup s.contentCache c = none ∧ ¬ c = contentOf ref) := by
  obtain ⟨ha, _, _⟩ := hinv
  cases h1 : alookup s.refCache ref with
  | some m =>
    rw [getOrRegister_refHit h1]
    constructor
    · intro h
      refine ⟨h, ?_⟩
      intro hc
      rw [hc] at h
      rw [ha _ (alookup_mem h1)] at h
      exact Option.noConfusion h
    · exact And.left
  | none =>
    cases h2 : alookup s.contentCache (contentOf ref) with
    | some m =>
      rw [getOrRegister_contentHit h1 h2]
      constructor
      · intro h
        refine ⟨h, ?_⟩
        intro hc
        rw [hc, h2] at h
        exact Option.noConfusion h
      · exact And.left
    | none =>
      rw [getOrRegister_miss h1 h2]
      rw [alookup_append]
      cases hl : alookup s.contentCache c with
      | some w =>
        constructor
        · intro h
          exact Option.noConfusion h
        · intro h
          exact Option.noConfusion h.1
      | none =>
        by_cases hc : contentOf ref = c
        · subst hc
          simp [alookup, Option.orElse]
        · have hne : ¬ c = contentOf ref := fun hh => hc hh.symm
          simp [alookup, Option.orElse, hc, hne]

theorem getOrRegister_count {contentOf : Nat → String} {s : ThemeState}
    (hinv : themeInv contentOf s) (ref : Nat) (c : String) :
    countRegistrationsFor (getOrRegisterCustomTheme contentOf s ref).1 c =
      countRegistrationsFor s c +
        (if alookup s.contentCache c = none ∧ c = contentOf ref
         then 1 else 0) := by
  obtain ⟨ha, _, _⟩ := hinv
  cases h1 : alookup s.refCache ref with
  | some m =>
    rw [getOrRegister_refHit h1]
    have : ¬ (alookup s.contentCache c = none ∧ c = contentOf ref) := by
      rintro ⟨hnone, rfl⟩
      rw [ha _ (alookup_mem h1)] at hnone
      exact Option.noConfusion hnone
    rw [if_neg this]
    rfl
  | none =>
    cases h2 : alookup s.contentCache (contentOf ref) with
    | some m =>
      rw [getOrRegister_contentHit h1 h2]
      have : ¬ (alookup s.contentCache c = none ∧ c = contentOf ref) := by
        rintro ⟨hnone, rfl⟩
        rw [h2] at hnone
        exact Option.noConfusion hnone
      rw [if_neg this]
      rfl
    | none =>
      rw [getOrRegister_miss h1 h2]
      unfold countRegistrationsFor
      simp only [List.filter_append, List.length_append]
      by_cases hc : c = contentOf ref
      · subst hc
        rw [if_pos ⟨h2, rfl⟩]
        simp
      · rw [if_neg (by rintro ⟨_, hh⟩; exact hc hh)]
        have hne : ¬ (contentOf ref = c) := fun hh => hc hh.symm
        simp [hne]

theorem runTheme_spec (contentOf : Nat → String) (refs : List Nat)
    {s : ThemeState} (hinv : themeInv contentOf s) :
    themeInv contentOf (runThemeCalls contentOf refs s).1 ∧
    (∀ c n, alookup s.contentCache c = some n →
      alookup (runThemeCalls contentOf refs s).1.contentCache c = some n) ∧
    (∀ p ∈ refs.zip (runThemeCalls contentOf refs s).2,
      alookup (runThemeCalls contentOf refs s).1.contentCache (contentOf p.1) =
        some p.2) ∧
    (∀ c, alookup (runThemeCalls contentOf refs s).1.contentCache c = none ↔
      (alookup s.contentCache c = none ∧ c ∉ refs.map contentOf)) ∧
    (∀ c, countRegistrationsFor (runThemeCalls contentOf refs s).1 c =
      countRegistrationsFor s c +
        (if alookup s.contentCache c = none ∧ c ∈ refs.map contentOf
         then 1 else 0)) := by
  induction refs generalizing s with
  | nil =>
    refine ⟨hinv, fun c n h => h, ?_, ?_, ?_⟩
    · intro p hp
      simp [runThemeCalls] at hp
    · intro c
      simp [runThemeCalls]
    · intro c
      simp [runThemeCalls]
  | cons ref refs ih =>
    have e1 : (runThemeCalls contentOf (ref :: refs) s).1 =
        (runThemeCalls contentOf refs
          (getOrRegisterCustomTheme contentOf s ref).1).1 := rfl
    have e2 : (runThemeCalls contentOf (ref :: refs) s).2 =
        (getOrRegisterCustomTheme contentOf s ref).2 ::
          (runThemeCalls contentOf refs
            (getOrRegisterCustomTheme contentOf s ref).1).2 := rfl
    have hinv1 := getOrRegister_inv hinv ref
    obtain ⟨ihInv, ihMono, ihZip, ihNone, ihCount⟩ := ih hinv1
    refine ⟨by rw [e1]; exact ihInv, ?_, ?_, ?_, ?_⟩
    · intro c n h
      rw [e1]
      exact ihMono c n (getOrRegister_mono ref h)
    · intro p hp
      rw [e2] at hp
      rw [List.zip_cons_cons] at hp
      rw [e1]
      rcases List.mem_cons.1 hp with hp' | hp'
      · rw [hp']
        exact ihMono _ _ (getOrRegister_result hinv ref)
      · exact ihZip p hp'
    · intro c
      rw [e1, ihNone c, getOrRegister_none_iff hinv ref c]
      simp only [List.map_cons, List.mem_cons]
      constructor
      · rintro ⟨⟨hn, hne⟩, hnin⟩
        exact ⟨hn, by rintro (h | h) <;> [exact hne h; exact hnin h]⟩
      · rintro ⟨hn, hnin⟩
        exact ⟨⟨hn, fun h => hnin (Or.inl h)⟩, fun h => hnin (Or.inr h)⟩
    · intro c
      have hiff := getOrRegister_none_iff hinv ref c
      rw [e1, ihCount c, getOrRegister_count hinv ref c]
      simp only [hiff, List.map_cons, List.mem_cons]
      by_cases hc : c = contentOf ref
      · cases hl : alookup s.contentCache c with
        | some w => simp [hc, hl]
        | none => simp [hc, hl]
      · cases hl : alookup s.contentCache c with
        | some w => simp [hc, hl]
        | none => simp [hc, hl]

/-- Claim C3: along any sequence of `getOrRegisterCustomTheme` calls from
the module-load state, any two calls whose theme objects have equal JSON
content (including distinct references) return the same theme name, and
`registerTheme` is invoked exactly once in total for a content that occurs in
the sequence (zero times otherwise), regardless of call order or count. -/
theorem theme_dedup_idempotent (contentOf : Nat → String) (refs : List Nat) :
    (∀ A nA B nB,
      (A, nA) ∈ refs.zip (runThemeCalls contentOf refs initialThemeState).2 →
      (B, nB) ∈ refs.zip (runThemeCalls contentOf refs initialThemeState).2 →
      contentOf A = contentOf B → nA = nB) ∧
    (∀ c, countRegistrationsFor
        (runThemeCalls contentOf refs initialThemeState).1 c =
      if c ∈ refs.map contentOf then 1 else 0) := by
  obtain ⟨_, _, hzip, _, hcount⟩ :=
    runTheme_spec contentOf refs (themeInv_initial contentOf)
  constructor
  · intro A nA B nB hA hB hAB
    have h1 := hzip (A, nA) hA
    have h2 := hzip (B, nB) hB
    rw [hAB] at h1
    rw [h1] at h2
    exact Option.some_inj.1 h2
  · intro c
    rw [hcount c]
    simp [countRegistrationsFor, initialThemeState, alookup]

/-- Witness for theme dedup: two distinct references (0 and 1) with the same
content `"c"` both resolve to `"__custom_theme_0"`, and exactly one
registration is recorded for `"c"`. -/
theorem theme_dedup_idempotent_witness :
    "__custom_theme_0" = "__custom_theme_0" ∧
    countRegistrationsFor
      (runThemeCalls (fun _ => "c") [0, 1] initialThemeState).1 "c" = 1 := by
  constructor
  · exact (theme_dedup_idempotent (fun _ => "c") [0, 1]).1 0 "__custom_theme_0"
      1 "__custom_theme_0" (by decide) (by decide) rfl
  · rw [(theme_dedup_idempotent (fun _ => "c") [0, 1]).2 "c"]
    decide

/-! ### Error routing (claims C4 and C7) -/

/-- Claim C4: a `setOption` throw during the initial apply (init effect) with
no error callback is logged, not rethrown, and the rest of the effect still
runs (loading, event binding, group join); the same throw in the update
effect with no error callback is rethrown and not logged; with an error
callback configured, both sites route to the callback and neither rethrows
nor logs. -/
theorem setOption_failure_asymmetry :
    (∀ showLoading hasGroup,
      initEffect true true false true false showLoading hasGroup =
        { themesRegistered := true, initCalled := true,
          initErrorRouted := false, initErrorLogged := false, cached := true,
          setOptionCalled := true, setOptionErrorRouted := false,
          setOptionErrorLogged := true, setOptionRethrown := false,
          baselineRecorded := false, loadingShown := showLoading,
          eventsBound := true, groupJoined := hasGroup }) ∧
    updateEffect true false true false = ⟨true, false, true, false, false⟩ ∧
    (∀ showLoading hasGroup,
      initEffect true true false true true showLoading hasGroup =
        { themesRegistered := true, initCalled := true,
          initErrorRouted := false, initErrorLogged := false, cached := true,
          setOptionCalled := true, setOptionErrorRouted := true,
          setOptionErrorLogged := false, setOptionRethrown := false,
          baselineRecorded := false, loadingShown := showLoading,
          eventsBound := true, groupJoined := hasGroup }) ∧
    updateEffect true false true true = ⟨true, true, false, false, false⟩ := by
  refine ⟨?_, rfl, ?_, rfl⟩
  · intro showLoading hasGroup
    cases showLoading <;> cases hasGroup <;> rfl
  · intro showLoading hasGroup
    cases showLoading <;> cases hasGroup <;> rfl

theorem alookup_filter_key_false {α β : Type} [DecidableEq α]
    (q : α → Bool) {a : α} (ha : q a = false) (l : List (α × β)) :
    alookup (l.filter (fun p => q p.1)) a = none := by
  induction l with
  | nil => rfl
  | cons p rest ih =>
    obtain ⟨k, v⟩ := p
    rw [List.filter_cons]
    by_cases hk : k = a
    · subst hk
      simp only [ha]
      simpa using ih
    · by_cases hq : q k = true <;> simp [hq, alookup, hk, ih]

theorem alookup_filter_key_true {α β : Type} [DecidableEq α]
    (q : α → Bool) {a : α} (ha : q a = true) (l : List (α × β)) :
    alookup (l.filter (fun p => q p.1)) a = alookup l a := by
  induction l with
  | nil => rfl
  | cons p rest ih =>
    obtain ⟨k, v⟩ := p
    rw [List.filter_cons]
    by_cases hk : k = a
    · subst hk
      simp only [ha]
      simp [alookup, ih]
    · by_cases hq : q k = true <;> simp [hq, alookup, hk, ih]

theorem alookup_mergeOpts (a b : Opts) (k : String) :
    alookup (mergeOpts a b) k =
      (alookup b k).orElse (fun _ => alookup a k) := by
  unfold mergeOpts
  rw [alookup_append]
  cases hb : alookup b k with
  | some v =>
    have hq : (alookup b k).isNone = false := by rw [hb]; rfl
    have hfa : alookup (a.filter (fun p => (alookup b p.1).isNone)) k = none :=
      alookup_filter_key_false (fun key => (alookup b key).isNone) hq a
    rw [hfa]
    rfl
  | none =>
    have hq : (alookup b k).isNone = true := by rw [hb]; rfl
    have hfa : alookup (a.filter (fun p => (alookup b p.1).isNone)) k =
        alookup a k :=
      alookup_filter_key_true (fun key => (alookup b key).isNone) hq a
    rw [hfa]
    cases alookup a k <;> rfl

/-- Claim C7: the public `setOption` is a silent no-op without a cached
instance; with one, it calls the engine with the defaults merged with the
per-call overrides (overrides winning on every key), and a throw is routed
to the error callback when configured and rethrown otherwise. -/
theorem public_setOption_contract :
    (∀ t e d o, publicSetOption false t e d o = ⟨false, [], false, false⟩) ∧
    (∀ t e d o, (publicSetOption true t e d o).engineCalled = true ∧
      (publicSetOption true t e d o).optsUsed = mergeOpts d o) ∧
    (∀ d o k, alookup (mergeOpts d o) k =
      (alookup o k).orElse (fun _ => alookup d k)) ∧
    (∀ d o, (publicSetOption true true false d o).rethrown = true ∧
      (publicSetOption true true false d o).errorRouted = false) ∧
    (∀ d o, (publicSetOption true true true d o).errorRouted = true ∧
      (publicSetOption true true true d o).rethrown = false) ∧
    (∀ e d o, (publicSetOption true false e d o).errorRouted = false ∧
      (publicSetOption true false e d o).rethrown = false) := by
  refine ⟨fun t e d o => rfl, ?_, alookup_mergeOpts, fun d o => ⟨rfl, rfl⟩,
    fun d o => ⟨rfl, rfl⟩, ?_⟩
  · intro t e d o
    cases t <;> cases e <;> exact ⟨rfl, rfl⟩
  · intro e d o
    cases e <;> exact ⟨rfl, rfl⟩

/-! ### Lazy activation gate (claims C5 and C10) -/

/-- Claim C5: the gate starts Active exactly when lazy mode is disabled
(`false`, the default for an absent argument) and Pending otherwise; a
non-intersecting callback changes nothing; the first intersecting callback
while observing activates the gate and disconnects the observer; once Active
with no observer, every further event leaves it Active with no observer (the
transition is one-way and observation stops); and while the gate is Pending
(`shouldInit` false) the init effect makes zero engine calls. -/
theorem lazy_gate_one_way :
    (∀ o, (gateInitState o).isInView = !(isLazyMode o)) ∧
    (∀ s, gateStep s (GateEvent.signal false) = s) ∧
    (∀ s, s.observing = true →
      gateStep s (GateEvent.signal true) = ⟨true, false⟩) ∧
    (∀ s e, s.isInView = true → s.observing = false →
      (gateStep s e).isInView = true ∧ (gateStep s e).observing = false) ∧
    (∀ elementPresent initThrows setOptionThrows hasOnError showLoading
        hasGroup,
      initEffect false elementPresent initThrows setOptionThrows hasOnError
        showLoading hasGroup = noInitRun) := by
  refine ⟨fun o => rfl, ?_, ?_, ?_, fun _ _ _ _ _ _ => rfl⟩
  · intro s
    obtain ⟨iv, ob⟩ := s
    cases ob <;> rfl
  · intro s h
    simp [gateStep, h]
  · intro s e h1 h2
    cases e with
    | render opts elementPresent =>
      simp [gateStep, h1]
    | signal isIntersecting =>
      simp [gateStep, h1, h2]

/-- Witness for the gate claim: from the Active-unobserved state both a
render and an intersecting signal leave it Active and unobserved, and the
first intersecting signal while observing activates the gate. -/
theorem lazy_gate_one_way_witness :
    ((gateStep ⟨true, false⟩
        (GateEvent.render LazyOpt.observerConfig true)).isInView = true ∧
      (gateStep ⟨true, false⟩
        (GateEvent.render LazyOpt.observerConfig true)).observing = false) ∧
    gateStep ⟨false, true⟩ (GateEvent.signal true) = ⟨true, false⟩ :=
  ⟨lazy_gate_one_way.2.2.2.1 ⟨true, false⟩
      (GateEvent.render LazyOpt.observerConfig true) rfl rfl,
    lazy_gate_one_way.2.2.1 ⟨false, true⟩ rfl⟩

theorem gateStep_keeps_pending {s : GateState} (h : s.isInView = false)
    {e : GateEvent} (he : e ≠ GateEvent.signal true) :
    (gateStep s e).isInView = false := by
  cases e with
  | render opts elementPresent =>
    simp only [gateStep]
    split_ifs <;> simpa using h
  | signal isIntersecting =>
    cases isIntersecting with
    | false => simp [gateStep, h]
    | true => exact absurd rfl he

/-- Claim C10: with lazy mode enabled on the first render (an options
object), and the container never producing an intersecting signal, the gate
returns `false` forever — in particular, later renders that change `lazyInit`
to `false` never activate it, because the initial state was seeded from the
first render and the observer effect is skipped once lazy mode is off. -/
theorem lazy_gate_never_activates (events : List GateEvent)
    (h : ∀ e ∈ events, e ≠ GateEvent.signal true) :
    (runGate LazyOpt.observerConfig events).isInView = false := by
  have hgen : ∀ (evs : List GateEvent),
      (∀ e ∈ evs, e ≠ GateEvent.signal true) →
      ∀ (s : GateState), s.isInView = false →
      (List.foldl gateStep s evs).isInView = false := by
    intro evs
    induction evs with
    | nil => exact fun _ s hs => hs
    | cons e rest ih =>
      intro hh s hs
      rw [List.foldl_cons]
      exact ih (fun x hx => hh x (List.mem_cons_of_mem _ hx)) _
        (gateStep_keeps_pending hs (hh e (List.mem_cons_self e rest)))
  exact hgen events h _ rfl

/-- Witness for the stuck-Pending claim: lazy starts as an object, the
container is observed, a non-intersecting callback fires, then `lazyInit`
becomes `false` on a later render — the gate still returns `false`. -/
theorem lazy_gate_never_activates_witness :
    (runGate LazyOpt.observerConfig
      [GateEvent.render LazyOpt.observerConfig true,
       GateEvent.signal false,
       GateEvent.render (LazyOpt.flag false) true]).isInView = false :=
  lazy_gate_never_activates _ (by decide)

end ReactUseEcharts
